import Mathlib

/-!
Verification of the Phylax expectation-evaluation engine, execution
causality graph and golden-reference workflow.

The definitions below are a shallow embedding of the Python sources under
`phylax/_internal` (rules, groups, conditionals, scoping, templates,
evaluator, evidence) and `phylax/server/routes/traces.py`.  Machine strings
stay `String`, latencies are `Int`, Python `dict` contexts become a record
of `Option` fields, and Python exceptions become `Except`.
-/

set_option maxHeartbeats 1000000

namespace Phylax

/-- Severity levels, as the string enum `{"low","medium","high"}`. -/
inductive Severity where
| low
| medium
| high
deriving DecidableEq, Repr

/-- `severity_order = {"low": 0, "medium": 1, "high": 2}` used by the
aggregation loops in `groups.py` and `evaluator.py`. -/
def severity_order : Severity → Nat
| Severity.low => 0
| Severity.medium => 1
| Severity.high => 2

/-- `RuleResult` from `rules.py` (the dataclass the whole engine passes
around): pass flag, rule name, severity, violation message. -/
structure RuleResult where
  passed : Bool
  rule_name : String
  severity : Severity
  violation_message : String
deriving DecidableEq, Repr

/-- Verdict status: the closed two-value set `{"pass","fail"}`. -/
inductive VStatus where
| pass
| fail
deriving DecidableEq, Repr

/-- `Verdict` from the schema: status, worst severity (present only on
fail), ordered violation messages. -/
structure Verdict where
  status : VStatus
  severity : Option Severity
  violations : List String
deriving DecidableEq, Repr

/-- `Verdict(status="pass")` as constructed by the evaluator. -/
def Verdict.passV : Verdict := ⟨VStatus.pass, none, []⟩

/-- Python `str.lower()` (`String.map Char.toLower`), kept as an explicit
list map so that proofs can compute with it. -/
def strLower (s : String) : String := ⟨s.data.map Char.toLower⟩

/-- Python substring containment `needle in hay`, on character lists:
true iff `needle` occurs contiguously in `hay` (the empty needle is
contained in everything, as in Python). -/
def listContainsSub (hay needle : List Char) : Bool :=
  needle.isPrefixOf hay ||
    match hay with
    | [] => false
    | _ :: t => listContainsSub t needle

/-- Python substring containment on strings. -/
def strContainsSub (hay needle : String) : Bool :=
  listContainsSub hay.data needle.data

/-- A Python scalar value as stored in a metadata dict; `pnone` is `None`
(also what `dict.get` returns for a missing key). -/
inductive PyVal where
| pnone
| pstr (s : String)
| pint (n : Int)
| pbool (b : Bool)
deriving DecidableEq, Repr

/-- Association-list lookup standing in for `dict.get(key)`:
returns `PyVal.pnone` when the key is absent, as Python does. -/
def dictGet (m : List (String × PyVal)) (key : String) : PyVal :=
  match m.find? (fun kv => kv.1 == key) with
  | some kv => kv.2
  | none => PyVal.pnone

/-- Boolean-dict lookup standing in for `flags.get(name, False)`. -/
def flagsGet (m : List (String × Bool)) (key : String) : Bool :=
  match m.find? (fun kv => kv.1 == key) with
  | some kv => kv.2
  | none => false

/-- The ambient context map handed to conditions and scopes.  Every key of
the Python dict is optional; `none` models an absent key. -/
structure Context where
  input : Option String
  model : Option String
  provider : Option String
  metadata : Option (List (String × PyVal))
  flags : Option (List (String × Bool))
  node_id : Option String
  stage : Option String
  tool : Option String
deriving Repr

/-- The empty context `{}`. -/
def Context.empty : Context := ⟨none, none, none, none, none, none, none, none⟩

/-- `Condition` variants from `conditionals.py`.  `providerEquals` stores
the provider already lowercased, as its `__init__` does. -/
inductive Condition where
| inputContains (substring : String) (case_sensitive : Bool)
| modelEquals (model : String)
| providerEquals (provider : String)
| metadataEquals (key : String) (value : PyVal)
| flagSet (flag_name : String)
deriving DecidableEq, Repr

/-- `Condition.name` class attributes. -/
def Condition.condName : Condition → String
| Condition.inputContains _ _ => "input_contains"
| Condition.modelEquals _ => "model_equals"
| Condition.providerEquals _ => "provider_equals"
| Condition.metadataEquals _ _ => "metadata_equals"
| Condition.flagSet _ => "flag_set"

/-- `ProviderEquals.__init__` lowercases its argument; the smart
constructor mirrors that. -/
def mkProviderEquals (provider : String) : Condition :=
  Condition.providerEquals (strLower provider)

/-- `Condition.evaluate(context)` for each variant, translated clause by
clause: absent keys fall back to `""`, `{}` or `False` exactly as the
`context.get(...)` calls do. -/
def Condition.evaluate : Condition → Context → Bool
| Condition.inputContains sub cs, ctx =>
    let input_text := ctx.input.getD ""
    if cs then strContainsSub input_text sub
    else strContainsSub (strLower input_text) (strLower sub)
| Condition.modelEquals m, ctx => (ctx.model.getD "") == m
| Condition.providerEquals p, ctx => strLower (ctx.provider.getD "") == p
| Condition.metadataEquals key v, ctx => dictGet (ctx.metadata.getD []) key == v
| Condition.flagSet flag, ctx => flagsGet (ctx.flags.getD []) flag

/-- `ExpectationScope` from `scoping.py`: all fields optional. -/
structure ExpectationScope where
  node_id : Option String
  provider : Option String
  stage : Option String
  tool : Option String
deriving DecidableEq, Repr

/-- `ExpectationScope.is_global`: no restriction set. -/
def ExpectationScope.is_global (s : ExpectationScope) : Bool :=
  s.node_id.isNone && s.provider.isNone && s.stage.isNone && s.tool.isNone

/-- `ExpectationScope.matches(context)`: a global scope matches anything;
otherwise each specified field must match the context (AND), the provider
case-insensitively with `""` as the absent default, the other three by
exact equality against the raw `context.get` (absent key gives no match). -/
def ExpectationScope.matches (s : ExpectationScope) (ctx : Context) : Bool :=
  if s.is_global then true
  else
    (match s.node_id with
     | some nid => ctx.node_id == some nid
     | none => true) &&
    (match s.provider with
     | some p => strLower (ctx.provider.getD "") == strLower p
     | none => true) &&
    (match s.stage with
     | some st => ctx.stage == some st
     | none => true) &&
    (match s.tool with
     | some t => ctx.tool == some t
     | none => true)

/-- A truthy optional string for `__repr__`: Python's `if self.node_id:`
is false both for `None` and for `""`. -/
def truthyOpt (o : Option String) : Option String :=
  match o with
  | some s => if s == "" then none else some s
  | none => none

/-- `ExpectationScope.__repr__`. -/
def ExpectationScope.reprStr (s : ExpectationScope) : String :=
  let parts : List String :=
    ((truthyOpt s.node_id).map (fun v => "node=" ++ v)).toList ++
    ((truthyOpt s.provider).map (fun v => "provider=" ++ v)).toList ++
    ((truthyOpt s.stage).map (fun v => "stage=" ++ v)).toList ++
    ((truthyOpt s.tool).map (fun v => "tool=" ++ v)).toList
  if parts.isEmpty then "Scope(global)"
  else "Scope(" ++ String.intercalate ", " parts ++ ")"

/-- The rule tree.  Atomic rules (`rules.py` primitives) are represented
by their name, severity and evaluation function; composite variants carry
exactly the state their Python classes hold.  The `ctx` field of
`conditional`/`scopedExp` is the wrapper's mutable `_context`, `{}` at
construction, replaced by `with_context`. -/
inductive Rule where
| atom (name : String) (severity : Severity) (evalFn : String → Int → RuleResult)
| andGroup (rules : List Rule) (name : String)
| orGroup (rules : List Rule) (name : String)
| notGroup (rule : Rule) (name : String) (severity : Severity)
| conditional (cond : Condition) (rule : Rule) (name : String) (ctx : Context)
| scopedExp (scope : ExpectationScope) (rule : Rule) (name : String) (ctx : Context)

/-- The rule's `name` attribute. -/
def Rule.name : Rule → String
| Rule.atom n _ _ => n
| Rule.andGroup _ n => n
| Rule.orGroup _ n => n
| Rule.notGroup _ n _ => n
| Rule.conditional _ _ n _ => n
| Rule.scopedExp _ _ n _ => n

/-- The rule's `severity` attribute.  `ConditionalExpectation.__init__` and
`ScopedExpectation.__init__` copy the wrapped rule's severity. -/
def Rule.severity : Rule → Severity
| Rule.atom _ s _ => s
| Rule.andGroup _ _ => Severity.medium
| Rule.orGroup _ _ => Severity.medium
| Rule.notGroup _ _ s => s
| Rule.conditional _ r _ _ => r.severity
| Rule.scopedExp _ r _ _ => r.severity

/-- `AndGroup(rules, name)` with the Python default name. -/
def mkAndGroup (rules : List Rule) (name : Option String) : Rule :=
  Rule.andGroup rules (name.getD "and_group")

/-- `OrGroup(rules, name)` with the Python default name. -/
def mkOrGroup (rules : List Rule) (name : Option String) : Rule :=
  Rule.orGroup rules (name.getD "or_group")

/-- `NotGroup(rule, name)`: default name `not_group`, severity is the class
attribute `medium`. -/
def mkNotGroup (rule : Rule) (name : Option String) : Rule :=
  Rule.notGroup rule (name.getD "not_group") Severity.medium

/-- `ConditionalExpectation(condition, rule, name)`: default name
`if_<condition.name>_then_<rule.name>`, `_context = {}`. -/
def mkConditional (cond : Condition) (rule : Rule) (name : Option String) : Rule :=
  Rule.conditional cond rule
    (name.getD ("if_" ++ cond.condName ++ "_then_" ++ rule.name)) Context.empty

/-- `ScopedExpectation(scope, rule, name)`: default name
`scoped_<rule.name>`, `_context = {}`. -/
def mkScoped (scope : ExpectationScope) (rule : Rule) (name : Option String) : Rule :=
  Rule.scopedExp scope rule (name.getD ("scoped_" ++ rule.name)) Context.empty

/-- The severity-maximum loop shared by `AndGroup.evaluate`,
`OrGroup.evaluate` and `Evaluator.evaluate`: start at `"low"` and replace
whenever `severity_order[r.severity] > severity_order[max]`. -/
def maxSeverityLoop (results : List RuleResult) : Severity :=
  results.foldl
    (fun acc r => if severity_order r.severity > severity_order acc then r.severity else acc)
    Severity.low

/-- The `"{result.rule_name}: {result.violation_message}"` parts joined by
`", "` in the group aggregation loops. -/
def violationParts (results : List RuleResult) : String :=
  String.intercalate ", "
    (results.map (fun r => r.rule_name ++ ": " ++ r.violation_message))

mutual

/-- `Rule.evaluate(response_text, latency_ms)`, clause by clause from
`groups.py`, `conditionals.py` and `scoping.py`. -/
def Rule.evaluate : Rule → String → Int → RuleResult
| Rule.atom _ _ f, text, lat => f text lat
| Rule.andGroup rules n, text, lat =>
    if rules.isEmpty then ⟨true, n, Severity.low, ""⟩
    else
      let results := evalRuleList rules text lat
      let failures := results.filter (fun r => !r.passed)
      if failures.isEmpty then ⟨true, n, Severity.low, ""⟩
      else
        ⟨false, n, maxSeverityLoop failures,
          "AND group failed: [" ++ violationParts failures ++ "]"⟩
| Rule.orGroup rules n, text, lat =>
    if rules.isEmpty then ⟨true, n, Severity.low, ""⟩
    else
      let results := evalRuleList rules text lat
      let passes := results.filter (fun r => r.passed)
      if !passes.isEmpty then ⟨true, n, Severity.low, ""⟩
      else
        ⟨false, n, maxSeverityLoop results,
          "OR group failed (all alternatives failed): [" ++ violationParts results ++ "]"⟩
| Rule.notGroup rule n sev, text, lat =>
    let result := rule.evaluate text lat
    if result.passed then
      ⟨false, n, sev, "NOT group failed: " ++ rule.name ++ " unexpectedly passed"⟩
    else ⟨true, n, Severity.low, ""⟩
| Rule.conditional cond rule n ctx, text, lat =>
    if !cond.evaluate ctx then ⟨true, n, Severity.low, ""⟩
    else
      let result := rule.evaluate text lat
      if !result.passed then
        ⟨false, n, result.severity,
          "[" ++ cond.condName ++ "] " ++ result.violation_message⟩
      else ⟨true, n, Severity.low, ""⟩
| Rule.scopedExp scope rule n ctx, text, lat =>
    if !scope.matches ctx then ⟨true, n, Severity.low, ""⟩
    else
      let result := rule.evaluate text lat
      if !result.passed then
        ⟨false, n, result.severity,
          "[" ++ scope.reprStr ++ "] " ++ result.violation_message⟩
      else ⟨true, n, Severity.low, ""⟩

/-- `[rule.evaluate(text, lat) for rule in rules]`. -/
def evalRuleList : List Rule → String → Int → List RuleResult
| [], _, _ => []
| r :: rs, text, lat => r.evaluate text lat :: evalRuleList rs text lat

end

/-- The `Evaluator`: its ordered rule list and its `_context`, which is
`none` until `set_context` is called (the code guards with
`hasattr(self, '_context')`). -/
structure Evaluator where
  rules : List Rule
  context : Option Context

/-- `Evaluator()`: empty rule list, no context attribute yet. -/
def Evaluator.new : Evaluator := ⟨[], none⟩

/-- `add_rule`. -/
def Evaluator.add_rule (ev : Evaluator) (r : Rule) : Evaluator :=
  ⟨ev.rules ++ [r], ev.context⟩

/-- `set_context`: replaces the ambient context. -/
def Evaluator.set_context (ev : Evaluator) (ctx : Context) : Evaluator :=
  ⟨ev.rules, some ctx⟩

/-- The body of the evaluator loop that re-supplies the current context:
`isinstance(rule, ConditionalExpectation)` / `ScopedExpectation` checks on
the top-level rule, then `rule.with_context(self._context)`.  Any other
rule shape is left untouched. -/
def supplyContext (ctx : Context) : Rule → Rule
| Rule.conditional cond r n _ => Rule.conditional cond r n ctx
| Rule.scopedExp scope r n _ => Rule.scopedExp scope r n ctx
| r => r

/-- The rule actually evaluated for a list entry, given the evaluator's
optional `_context`. -/
def contextedRule (octx : Option Context) (r : Rule) : Rule :=
  match octx with
  | some ctx => supplyContext ctx r
  | none => r

/-- `Evaluator.evaluate(response_text, latency_ms)`: empty list means
pass; otherwise every rule is evaluated (context re-supplied to top-level
conditional/scoped rules first), the failing messages are collected in
rule order, and severity is the maximum over failing results. -/
def Evaluator.evaluate (ev : Evaluator) (text : String) (lat : Int) : Verdict :=
  if ev.rules.isEmpty then Verdict.passV
  else
    let results := ev.rules.map (fun r => (contextedRule ev.context r).evaluate text lat)
    let violations := (results.filter (fun r => !r.passed)).map (fun r => r.violation_message)
    if violations.isEmpty then Verdict.passV
    else
      Verdict.mk VStatus.fail
        (some (maxSeverityLoop (results.filter (fun r => !r.passed)))) violations

/-! ### Raw evidence (`evidence.py`) -/

/-- `PathEvidence`: the two paths, a divergence flag and the divergence
point. -/
structure PathEvidence where
  original_path : List String
  new_path : List String
  diverged : Bool
  divergence_point : Option String
deriving DecidableEq, Repr

/-- The `for i, (orig, new) in enumerate(zip(...))` loop body of
`compare_paths`: the first shared index where the two lists differ. -/
def firstMismatch : Nat → List String → List String → Option Nat
| _, [], _ => none
| _, _ :: _, [] => none
| i, a :: as, b :: bs => if a ≠ b then some i else firstMismatch (i + 1) as bs

/-- `compare_paths(original_path, new_path)`: diverged iff the lists are
unequal; the divergence point is `index_i` at the first differing shared
index, else `length_mismatch` (the loop's `else` clause), and absent when
not diverged. -/
def compare_paths (original_path new_path : List String) : PathEvidence :=
  let diverged := original_path ≠ new_path
  let divergence_point :=
    if diverged then
      match firstMismatch 0 original_path new_path with
      | some i => some ("index_" ++ toString i)
      | none => some "length_mismatch"
    else none
  ⟨original_path, new_path, decide diverged, divergence_point⟩

/-! ### Template registry (`templates.py`) -/

/-- `ExpectationTemplate`: name, description, rules, version. -/
structure ExpectationTemplate where
  name : String
  description : String
  rules : List Rule
  version : String

/-- The registry's `_templates` dict: name-keyed, insertion-ordered. -/
abbrev TemplateRegistry := List (String × ExpectationTemplate)

/-- Dict membership `name in self._templates`. -/
def TemplateRegistry.exists_ (reg : TemplateRegistry) (name : String) : Bool :=
  (reg.find? (fun kv => kv.1 == name)).isSome

/-- Dict lookup `self._templates[name]`. -/
def TemplateRegistry.getT (reg : TemplateRegistry) (name : String) : Option ExpectationTemplate :=
  (reg.find? (fun kv => kv.1 == name)).map (fun kv => kv.2)

/-- `self._templates[name] = template` on a Python dict: overwrite in
place when the key exists, append otherwise. -/
def dictSet (reg : TemplateRegistry) (name : String) (t : ExpectationTemplate) :
    TemplateRegistry :=
  if TemplateRegistry.exists_ reg name then
    reg.map (fun kv => if kv.1 == name then (name, t) else kv)
  else reg ++ [(name, t)]

/-- `TemplateRegistry.register`: raises `ValueError` when the name is
already registered, otherwise inserts. -/
def TemplateRegistry.register (reg : TemplateRegistry) (t : ExpectationTemplate) :
    Except String TemplateRegistry :=
  if TemplateRegistry.exists_ reg t.name then
    Except.error ("Template '" ++ t.name ++ "' already registered. Use override=True to replace.")
  else Except.ok (dictSet reg t.name t)

/-- `TemplateRegistry.register_or_update`: unconditional overwrite. -/
def TemplateRegistry.register_or_update (reg : TemplateRegistry) (t : ExpectationTemplate) :
    TemplateRegistry :=
  dictSet reg t.name t

/-! ### Golden-reference blessing (`server/routes/traces.py`) -/

/-- A stored call record, reduced to the fields `bless_trace` inspects:
identifier, optional verdict, golden flag. -/
structure Trace where
  trace_id : String
  verdict : Option Verdict
  blessed : Bool
deriving DecidableEq, Repr

/-- The trace store, as an ordered list of records. -/
abbrev Store := List Trace

/-- `storage.get_trace(trace_id)`. -/
def Store.get_trace (s : Store) (id : String) : Option Trace :=
  s.find? (fun t => t.trace_id == id)

/-- Modelled from the spec: `FileStorage.bless_trace` (the storage backend
is not under src/) marks the stored record golden — "the act of marking a
passing record as golden" — and returns the updated record. -/
def Store.bless_trace (s : Store) (id : String) : Store × Option Trace :=
  match Store.get_trace s id with
  | none => (s, none)
  | some t =>
      let t' : Trace := ⟨t.trace_id, t.verdict, true⟩
      (s.map (fun u => if u.trace_id == id then t' else u), some t')

/-- `bless_trace` route: 404 when the trace is missing, `PHYLAX_E201`
rejections when the verdict is absent or failing, otherwise the record is
blessed in the store.  On success the new store is returned; an error
leaves the store untouched (the route raises before any write). -/
def bless_route (s : Store) (id : String) : Except String Store :=
  match Store.get_trace s id with
  | none => Except.error ("Trace " ++ id ++ " not found")
  | some t =>
      match t.verdict with
      | none => Except.error "PHYLAX_E201: Cannot bless trace without verdict"
      | some v =>
          if v.status ≠ VStatus.pass then
            Except.error "PHYLAX_E201: Cannot bless a failing trace"
          else
            match Store.bless_trace s id with
            | (_, none) => Except.error "Failed to bless trace"
            | (s', some _) => Except.ok s'

/-! ### Execution causality graph

The graph implementation (`phylax/_internal/graph.py`) is not under src/;
the definitions in this section are modelled from the spec (§4.7). -/

/-- Modelled from the spec: a graph node `{nodeId, parentNodeId (null only
for the root), verdict, latencyMs}`; `vfail` is "the node's own verdict is
fail". -/
structure GNode where
  node_id : String
  parent_node_id : Option String
  vfail : Bool
  latency_ms : Int
deriving DecidableEq, Repr

/-- A graph, as its nodes in creation/insertion order. -/
abbrev Graph := List GNode

/-- Node ids of a graph. -/
def Graph.ids (g : Graph) : List String := g.map (fun n => n.node_id)

/-- Lookup of a node by id. -/
def Graph.findNode (g : Graph) (id : String) : Option GNode :=
  g.find? (fun n => n.node_id == id)

/-- Fuel-bounded length of the parent chain from a node id up to the
root: `some k` when the chain reaches a parentless node in at most `fuel`
steps. -/
def chainDepth (g : Graph) : Nat → String → Option Nat
| 0, _ => none
| fuel + 1, id =>
    match Graph.findNode g id with
    | none => none
    | some n =>
        match n.parent_node_id with
        | none => some 0
        | some p => (chainDepth g fuel p).map (fun k => k + 1)

/-- Modelled from the spec: graph validity (§3, §4.7) — a non-empty record
set with distinct node ids, exactly one root (null parent), every parent
resolving, and a rooted tree (every node's parent chain reaches the root,
which rules out cycles). -/
def validGraph (g : Graph) : Bool :=
  !g.isEmpty &&
  (Graph.ids g).Nodup &&
  ((g.filter (fun n => n.parent_node_id.isNone)).length == 1) &&
  g.all (fun n => match n.parent_node_id with
    | some p => (Graph.findNode g p).isSome
    | none => true) &&
  g.all (fun n => (chainDepth g g.length n.node_id).isSome)

/-- Fuel-bounded strict-ancestor test: `isStrictAncestor g fuel d a` is
true when walking parent pointers up from `d` reaches `a` in at least one
and at most `fuel` steps. -/
def isStrictAncestor (g : Graph) : Nat → String → String → Bool
| 0, _, _ => false
| fuel + 1, d, a =>
    match Graph.findNode g d with
    | none => false
    | some n =>
        match n.parent_node_id with
        | none => false
        | some p => p == a || isStrictAncestor g fuel p a

/-- Modelled from the spec: a node is tainted when it is the first failing
node itself or one of its descendants. -/
def tainted (g : Graph) (ff : String) (id : String) : Bool :=
  id == ff || isStrictAncestor g g.length id ff

/-- Modelled from the spec: `GraphVerdict` `{status, failedCount,
taintedCount, firstFailingNode}`. -/
structure GraphVerdict where
  status : VStatus
  failedCount : Nat
  taintedCount : Nat
  firstFailingNode : Option String
deriving DecidableEq, Repr

/-- Modelled from the spec: `compute_verdict()` — traverse in insertion
order; status is fail iff any node's own verdict is fail; the first such
node is `firstFailingNode`; `failedCount` counts failing nodes;
`taintedCount` counts the first failing node and its descendants. -/
def compute_verdict (g : Graph) : GraphVerdict :=
  match g.filter (fun n => n.vfail) with
  | [] => ⟨VStatus.pass, 0, 0, none⟩
  | f :: fs =>
      ⟨VStatus.fail, (f :: fs).length,
        (g.filter (fun n => tainted g f.node_id n.node_id)).length,
        some f.node_id⟩

/-! ### Shared lemmas -/

/-- The severity-maximum loop, generalized over its accumulator: the
result dominates the accumulator and every list entry, and is either the
accumulator or one of the entries. -/
theorem foldl_sev_spec (l : List RuleResult) (acc : Severity) :
    severity_order acc ≤
      severity_order (l.foldl
        (fun a r => if severity_order r.severity > severity_order a then r.severity else a) acc) ∧
    (∀ r ∈ l, severity_order r.severity ≤
      severity_order (l.foldl
        (fun a r => if severity_order r.severity > severity_order a then r.severity else a) acc)) ∧
    ((l.foldl
        (fun a r => if severity_order r.severity > severity_order a then r.severity else a) acc)
      = acc ∨
     (l.foldl
        (fun a r => if severity_order r.severity > severity_order a then r.severity else a) acc)
      ∈ l.map (fun r => r.severity)) := by
  induction l generalizing acc with
  | nil => simp
  | cons x t ih =>
    rcases ih (if severity_order x.severity > severity_order acc then x.severity else acc)
      with ⟨h1, h2, h3⟩
    simp only [List.foldl_cons]
    refine ⟨le_trans ?_ h1, ?_, ?_⟩
    · by_cases h : severity_order x.severity > severity_order acc
      · rw [if_pos h]; omega
      · rw [if_neg h]
    · intro r hr
      rcases List.mem_cons.mp hr with rfl | hr
      · refine le_trans ?_ h1
        by_cases h : severity_order r.severity > severity_order acc
        · rw [if_pos h]
        · rw [if_neg h]; omega
      · exact h2 r hr
    · rcases h3 with h3 | h3
      · by_cases h : severity_order x.severity > severity_order acc
        · rw [if_pos h] at h3 ⊢
          refine Or.inr ?_
          rw [h3]
          exact List.mem_map_of_mem _ (List.mem_cons_self x t)
        · rw [if_neg h] at h3 ⊢
          exact Or.inl h3
      · refine Or.inr ?_
        simp only [List.map_cons, List.mem_cons]
        exact Or.inr h3

/-- A severity of order `0` is `low`. -/
theorem sev_order_zero {s : Severity} (h : severity_order s ≤ 0) : s = Severity.low := by
  cases s <;> simp [severity_order] at h ⊢

/-- Upper bound: the group aggregation loop dominates every entry. -/
theorem maxSeverityLoop_upper (l : List RuleResult) :
    ∀ r ∈ l, severity_order r.severity ≤ severity_order (maxSeverityLoop l) :=
  (foldl_sev_spec l Severity.low).2.1

/-- Attainment: on a non-empty list the aggregation loop returns the
severity of one of the entries. -/
theorem maxSeverityLoop_mem (l : List RuleResult) (h : l ≠ []) :
    maxSeverityLoop l ∈ l.map (fun r => r.severity) := by
  rcases (foldl_sev_spec l Severity.low).2.2 with h3 | h3
  · rcases l with _ | ⟨x, t⟩
    · exact absurd rfl h
    · have hx := (foldl_sev_spec (x :: t) Severity.low).2.1 x (by simp)
      have hlow : maxSeverityLoop (x :: t) = Severity.low := h3
      rw [h3] at hx
      rw [hlow]
      have hxlow : x.severity = Severity.low :=
        sev_order_zero (by simpa [severity_order] using hx)
      rw [← hxlow]
      exact List.mem_map_of_mem _ (List.mem_cons_self x t)
  · exact h3

/-- `evalRuleList` is the elementwise evaluation map. -/
theorem evalRuleList_eq_map (rs : List Rule) (text : String) (lat : Int) :
    evalRuleList rs text lat = rs.map (fun r => r.evaluate text lat) := by
  induction rs with
  | nil => rfl
  | cons r t ih => simp [evalRuleList, ih]

/-- The head of a filtered list is `find?`. -/
theorem filter_head_eq_find (p : α → Bool) (l : List α) :
    (match l.filter p with
     | [] => none
     | f :: _ => some f) = l.find? p := by
  induction l with
  | nil => rfl
  | cons x t ih =>
    by_cases h : p x
    · simp [List.filter_cons, h, List.find?_cons_of_pos]
    · rw [List.find?_cons_of_neg _ (by simp [h])]
      rw [← ih]
      simp [List.filter_cons, h]

/-- `find?` skips a prefix in which nothing matches. -/
theorem find?_append_of_none {α : Type} (p : α → Bool) (l1 l2 : List α)
    (h : l1.find? p = none) : (l1 ++ l2).find? p = l2.find? p := by
  induction l1 with
  | nil => rfl
  | cons x t ih =>
    by_cases hx : p x
    · rw [List.find?_cons_of_pos _ hx] at h
      simp at h
    · rw [List.find?_cons_of_neg _ hx] at h
      rw [List.cons_append, List.find?_cons_of_neg _ hx]
      exact ih h

/-- `find?` is decided by a matching prefix. -/
theorem find?_append_of_some {α : Type} (p : α → Bool) (l1 l2 : List α) (a : α)
    (h : l1.find? p = some a) : (l1 ++ l2).find? p = some a := by
  induction l1 with
  | nil => simp [List.find?] at h
  | cons x t ih =>
    by_cases hx : p x
    · rw [List.find?_cons_of_pos _ hx] at h
      rw [List.cons_append, List.find?_cons_of_pos _ hx]
      exact h
    · rw [List.find?_cons_of_neg _ hx] at h
      rw [List.cons_append, List.find?_cons_of_neg _ hx]
      exact ih h

/-- `find?` on a cons whose head matches. -/
theorem find?_cons_pos' {α : Type} (p : α → Bool) (a : α) (l : List α) (h : p a = true) :
    List.find? p (a :: l) = some a := by
  simp [List.find?, h]

/-- `find?` on a cons whose head does not match. -/
theorem find?_cons_neg' {α : Type} (p : α → Bool) (a : α) (l : List α) (h : p a = false) :
    List.find? p (a :: l) = List.find? p l := by
  simp [List.find?, h]

/-- Overwriting an existing key: the written entry is then found. -/
theorem find?_map_set_self (reg : TemplateRegistry) (nm : String) (t : ExpectationTemplate)
    (h : TemplateRegistry.exists_ reg nm = true) :
    (reg.map (fun kv => if kv.1 == nm then (nm, t) else kv)).find?
      (fun kv => kv.1 == nm) = some (nm, t) := by
  induction reg with
  | nil => simp [TemplateRegistry.exists_, List.find?] at h
  | cons kv tl ih =>
    by_cases hk : (kv.1 == nm) = true
    · rw [List.map_cons, if_pos hk]
      rw [find?_cons_pos' (fun kv => kv.1 == nm) (nm, t) _ (by simp)]
    · rw [List.map_cons, if_neg hk]
      rw [find?_cons_neg' (fun kv => kv.1 == nm) kv _ (by simpa using hk)]
      refine ih ?_
      rw [TemplateRegistry.exists_] at h ⊢
      rwa [find?_cons_neg' (fun kv => kv.1 == nm) kv tl (by simpa using hk)] at h

/-- Overwriting the key `nm` does not change what `find?` sees for a
different key `m`. -/
theorem find?_map_set_other (reg : TemplateRegistry) (nm : String) (t : ExpectationTemplate)
    (m : String) (hm : m ≠ nm) :
    (reg.map (fun kv => if kv.1 == nm then (nm, t) else kv)).find?
      (fun kv => kv.1 == m) = reg.find? (fun kv => kv.1 == m) := by
  induction reg with
  | nil => rfl
  | cons kv tl ih =>
    by_cases hk : (kv.1 == nm) = true
    · have hk1 : kv.1 = nm := by simpa using hk
      rw [List.map_cons, if_pos hk]
      rw [find?_cons_neg' (fun kv => kv.1 == m) (nm, t) _ (by simpa using Ne.symm hm)]
      rw [find?_cons_neg' (fun kv => kv.1 == m) kv tl
        (by show (kv.1 == m) = false; rw [hk1]; simpa using Ne.symm hm)]
      exact ih
    · rw [List.map_cons, if_neg hk]
      by_cases hkm : (kv.1 == m) = true
      · rw [find?_cons_pos' (fun kv => kv.1 == m) kv _ hkm,
          find?_cons_pos' (fun kv => kv.1 == m) kv tl hkm]
      · rw [find?_cons_neg' (fun kv => kv.1 == m) kv _ (by simpa using hkm),
          find?_cons_neg' (fun kv => kv.1 == m) kv tl (by simpa using hkm)]
        exact ih

/-- After a dict write, looking up the written key returns the new
value. -/
theorem getT_dictSet_self (reg : TemplateRegistry) (nm : String) (t : ExpectationTemplate) :
    TemplateRegistry.getT (dictSet reg nm t) nm = some t := by
  rw [dictSet]
  by_cases h : TemplateRegistry.exists_ reg nm = true
  · rw [if_pos h, TemplateRegistry.getT, find?_map_set_self reg nm t h]
    rfl
  · rw [if_neg h]
    have hn : reg.find? (fun kv => kv.1 == nm) = none := by
      rw [TemplateRegistry.exists_] at h
      exact Option.not_isSome_iff_eq_none.mp (by simpa using h)
    rw [TemplateRegistry.getT, find?_append_of_none _ reg _ hn,
      find?_cons_pos' (fun kv => kv.1 == nm) (nm, t) [] (by simp)]
    rfl

/-- A dict write leaves every other key's binding unchanged. -/
theorem getT_dictSet_other (reg : TemplateRegistry) (nm : String) (t : ExpectationTemplate)
    (m : String) (hm : m ≠ nm) :
    TemplateRegistry.getT (dictSet reg nm t) m = TemplateRegistry.getT reg m := by
  rw [dictSet]
  by_cases h : TemplateRegistry.exists_ reg nm = true
  · rw [if_pos h, TemplateRegistry.getT, TemplateRegistry.getT,
      find?_map_set_other reg nm t m hm]
  · rw [if_neg h, TemplateRegistry.getT, TemplateRegistry.getT]
    rcases hfm : reg.find? (fun kv => kv.1 == m) with _ | a
    · rw [find?_append_of_none _ reg _ hfm,
        find?_cons_neg' (fun kv => kv.1 == m) (nm, t) [] (by simpa using Ne.symm hm),
        List.find?_nil, hfm]
    · rw [find?_append_of_some _ reg _ a hfm, hfm]

/-- A rule engineered to always fail, used to exercise the gating and
negation semantics on concrete inputs. -/
def alwaysFailRule : Rule :=
  Rule.atom "always_fail" Severity.high
    (fun _ _ => ⟨false, "always_fail", Severity.high, "engineered failure"⟩)

/-- A rule that always passes. -/
def alwaysPassRule : Rule :=
  Rule.atom "always_pass" Severity.low (fun _ _ => ⟨true, "always_pass", Severity.low, ""⟩)

/-- C3: under a false condition or a non-matching scope,
`ConditionalExpectation.evaluate` and `ScopedExpectation.evaluate` return
passed=true with an empty violation message, for any wrapped rule, so the
inactive rule contributes nothing to the aggregate verdict. -/
theorem C3_inactive_gating (cond : Condition) (scope : ExpectationScope)
    (r r' : Rule) (n n' : String) (ctx ctx' : Context) (text : String) (lat : Int)
    (hc : cond.evaluate ctx = false) (hs : scope.matches ctx' = false) :
    (Rule.conditional cond r n ctx).evaluate text lat =
      RuleResult.mk true n Severity.low "" ∧
    (Rule.scopedExp scope r' n' ctx').evaluate text lat =
      RuleResult.mk true n' Severity.low "" := by
  constructor
  · simp [Rule.evaluate, hc]
  · simp [Rule.evaluate, hs]

/-- C3 witness: a condition on absent input and a node scope that does
not match, each wrapping an always-failing rule, both report a clean
pass. -/
theorem C3_witness :
    (Condition.inputContains "refund" false).evaluate Context.empty = false ∧
    (ExpectationScope.mk (some "node-A") none none none).matches Context.empty = false ∧
    (Rule.conditional (Condition.inputContains "refund" false) alwaysFailRule
       "cond" Context.empty).evaluate "any text" 7 =
      RuleResult.mk true "cond" Severity.low "" ∧
    (Rule.scopedExp (ExpectationScope.mk (some "node-A") none none none) alwaysFailRule
       "sc" Context.empty).evaluate "any text" 7 =
      RuleResult.mk true "sc" Severity.low "" := by
  have h := C3_inactive_gating (Condition.inputContains "refund" false)
    (ExpectationScope.mk (some "node-A") none none none)
    alwaysFailRule alwaysFailRule "cond" "sc" Context.empty Context.empty
    "any text" 7 (by decide) (by decide)
  exact ⟨by decide, by decide, h.1, h.2⟩

/-- C4: `AndGroup` evaluates every child and passes iff every child
passes (the empty group vacuously passes); on failure it collapses to a
single failing result aggregating every failing child's message, with
severity the maximum over the failing children. -/
theorem C4_andGroup_semantics (rules : List Rule) (n : String) (text : String) (lat : Int) :
    (((Rule.andGroup rules n).evaluate text lat).passed = true ↔
       ∀ r ∈ rules, (r.evaluate text lat).passed = true) ∧
    (rules = [] →
       (Rule.andGroup rules n).evaluate text lat = RuleResult.mk true n Severity.low "") ∧
    ((∃ r ∈ rules, (r.evaluate text lat).passed = false) →
       (Rule.andGroup rules n).evaluate text lat =
         RuleResult.mk false n
           (maxSeverityLoop
             ((rules.map (fun r => r.evaluate text lat)).filter (fun q => !q.passed)))
           ("AND group failed: [" ++ String.intercalate ", "
             (((rules.map (fun r => r.evaluate text lat)).filter (fun q => !q.passed)).map
               (fun q => q.rule_name ++ ": " ++ q.violation_message)) ++ "]") ∧
       maxSeverityLoop
           ((rules.map (fun r => r.evaluate text lat)).filter (fun q => !q.passed)) ∈
         ((rules.map (fun r => r.evaluate text lat)).filter (fun q => !q.passed)).map
           (fun q => q.severity) ∧
       ∀ q ∈ (rules.map (fun r => r.evaluate text lat)).filter (fun q => !q.passed),
         severity_order q.severity ≤
           severity_order
             (maxSeverityLoop
               ((rules.map (fun r => r.evaluate text lat)).filter (fun q => !q.passed)))) := by
  rcases hr : rules with _ | ⟨r0, rest⟩
  · refine ⟨by simp [Rule.evaluate], fun _ => by simp [Rule.evaluate], fun h => ?_⟩
    simp at h
  · rw [← hr]
    have hne : rules.isEmpty = false := by rw [hr]; rfl
    have hmap : evalRuleList rules text lat = rules.map (fun r => r.evaluate text lat) :=
      evalRuleList_eq_map rules text lat
    by_cases hfail :
        ((rules.map (fun r => r.evaluate text lat)).filter (fun q => !q.passed)).isEmpty
    · have hall : ∀ r ∈ rules, (r.evaluate text lat).passed = true := by
        intro r hrm
        have := List.isEmpty_iff.mp hfail
        have hmem : r.evaluate text lat ∈ rules.map (fun r => r.evaluate text lat) :=
          List.mem_map_of_mem _ hrm
        by_contra hcon
        have : r.evaluate text lat ∈
            (rules.map (fun r => r.evaluate text lat)).filter (fun q => !q.passed) := by
          refine List.mem_filter.mpr ⟨hmem, ?_⟩
          simpa using hcon
        rw [List.isEmpty_iff.mp hfail] at this
        simp at this
      refine ⟨?_, fun h => by rw [h] at hr; simp at hr, fun h => ?_⟩
      · simp only [Rule.evaluate, hne, Bool.false_eq_true, if_false, hmap, hfail, if_true]
        simpa using hall
      · rcases h with ⟨r, hrm, hrf⟩
        have := hall r hrm
        rw [this] at hrf
        simp at hrf
    · refine ⟨?_, fun h => by rw [h] at hr; simp at hr, fun _ => ?_⟩
      · simp only [Rule.evaluate, hne, Bool.false_eq_true, if_false, hmap, hfail]
        constructor
        · intro h
          simp at h
        · intro hall
          exfalso
          have hex : ∃ x ∈ rules, (x.evaluate text lat).passed = false := by
            simpa using hfail
          rcases hex with ⟨r, hrm, hrf⟩
          rw [hall r hrm] at hrf
          simp at hrf
      · refine ⟨?_, ?_, ?_⟩
        · simp only [Rule.evaluate, hne, Bool.false_eq_true, if_false, hmap, hfail]
          simp [violationParts]
        · exact maxSeverityLoop_mem _ (by simpa [List.isEmpty_iff] using hfail)
        · exact maxSeverityLoop_upper _

/-- C4 witness: a failing and a passing child; the group fails with the
failing child's message aggregated and its severity reported. -/
theorem C4_witness :
    (∃ r ∈ [alwaysFailRule, alwaysPassRule], (r.evaluate "txt" 3).passed = false) ∧
    (Rule.andGroup [alwaysFailRule, alwaysPassRule] "and_group").evaluate "txt" 3 =
      RuleResult.mk false "and_group" Severity.high
        "AND group failed: [always_fail: engineered failure]" ∧
    ((Rule.andGroup ([] : List Rule) "and_group").evaluate "txt" 3).passed = true := by
  have h := (C4_andGroup_semantics [alwaysFailRule, alwaysPassRule] "and_group" "txt" 3).2.2
    ⟨alwaysFailRule, by simp, by decide⟩
  refine ⟨⟨alwaysFailRule, by simp, by decide⟩, ?_, by decide⟩
  have h1 := h.1
  rw [h1]
  decide

/-- C5 counterexample: for the empty rule list, "every rule in rs fails"
holds vacuously, yet `OrGroup([])` passes (empty groups vacuously pass),
so "OrGroup(rs) fails iff every rule in rs fails" is false at `rs = []`. -/
theorem C5_counterexample :
    ¬(((Rule.orGroup ([] : List Rule) "or_group").evaluate "x" 0).passed = false ↔
        ∀ q ∈ ([] : List Rule), (q.evaluate "x" 0).passed = false) := by
  intro h
  have := h.mpr (by simp)
  simp [Rule.evaluate] at this

/-- C5 (amended): for non-empty `rs`, `OrGroup(rs)` fails iff every rule
fails, and only then aggregates all messages; `NotGroup(r)` passes iff
`r` fails and, when `r` unexpectedly passes, fails with the group's own
severity; singleton And/Or groups agree with the raw rule on pass/fail. -/
theorem C5_group_algebra (rules : List Rule) (r : Rule) (n : String) (sev : Severity)
    (text : String) (lat : Int) (hne : rules ≠ []) :
    (((Rule.orGroup rules n).evaluate text lat).passed = false ↔
       ∀ q ∈ rules, (q.evaluate text lat).passed = false) ∧
    ((∀ q ∈ rules, (q.evaluate text lat).passed = false) →
       (Rule.orGroup rules n).evaluate text lat =
         RuleResult.mk false n
           (maxSeverityLoop (rules.map (fun q => q.evaluate text lat)))
           ("OR group failed (all alternatives failed): [" ++ String.intercalate ", "
             ((rules.map (fun q => q.evaluate text lat)).map
               (fun q => q.rule_name ++ ": " ++ q.violation_message)) ++ "]")) ∧
    (((Rule.notGroup r n sev).evaluate text lat).passed = !(r.evaluate text lat).passed) ∧
    ((r.evaluate text lat).passed = true →
       (Rule.notGroup r n sev).evaluate text lat =
         RuleResult.mk false n sev ("NOT group failed: " ++ r.name ++ " unexpectedly passed")) ∧
    (((Rule.andGroup [r] n).evaluate text lat).passed = (r.evaluate text lat).passed) ∧
    (((Rule.orGroup [r] n).evaluate text lat).passed = (r.evaluate text lat).passed) := by
  have hne' : rules.isEmpty = false := by
    rcases rules with _ | _
    · exact absurd rfl hne
    · rfl
  have hmap := evalRuleList_eq_map rules text lat
  have hpassfilter :
      ((rules.map (fun q => q.evaluate text lat)).filter (fun q => q.passed)).isEmpty = true ↔
        ∀ q ∈ rules, (q.evaluate text lat).passed = false := by
    rw [List.isEmpty_iff, List.filter_eq_nil_iff]
    constructor
    · intro h q hq
      have := h _ (List.mem_map_of_mem _ hq)
      simpa using this
    · intro h x hx
      rcases List.mem_map.mp hx with ⟨q, hq, rfl⟩
      simp [h q hq]
  refine ⟨?_, ?_, ?_, ?_, ?_, ?_⟩
  · simp only [Rule.evaluate, hne', Bool.false_eq_true, if_false, hmap]
    by_cases hp :
        ((rules.map (fun q => q.evaluate text lat)).filter (fun q => q.passed)).isEmpty
    · simp only [hp, Bool.not_true, Bool.false_eq_true, if_false]
      simpa using hpassfilter.mp hp
    · simp only [Bool.not_eq_true] at hp
      simp only [hp, Bool.not_false, if_true]
      constructor
      · intro h
        simp at h
      · intro h
        exact absurd (hpassfilter.mpr h) (by simp [hp])
  · intro hall
    have hp := hpassfilter.mpr hall
    simp only [Rule.evaluate, hne', Bool.false_eq_true, if_false, hmap, hp, Bool.not_true,
      Bool.false_eq_true, if_false]
    simp [violationParts]
  · simp only [Rule.evaluate]
    by_cases hp : (r.evaluate text lat).passed
    · simp [hp]
    · simp only [Bool.not_eq_true] at hp
      simp [hp]
  · intro hp
    simp [Rule.evaluate, hp]
  · simp only [Rule.evaluate, evalRuleList]
    by_cases hp : (r.evaluate text lat).passed
    · simp [List.filter, hp, List.isEmpty]
    · simp only [Bool.not_eq_true] at hp
      simp [List.filter, hp, List.isEmpty]
  · simp only [Rule.evaluate, evalRuleList]
    by_cases hp : (r.evaluate text lat).passed
    · simp [List.filter, hp, List.isEmpty]
    · simp only [Bool.not_eq_true] at hp
      simp [List.filter, hp, List.isEmpty]

/-- C5 witness: on a two-rule OrGroup where both fail, the group fails
and aggregates both messages; NotGroup of a passing rule fails with the
group severity; singleton groups agree with the raw rule. -/
theorem C5_witness :
    ([alwaysFailRule, alwaysFailRule] : List Rule) ≠ [] ∧
    (((Rule.orGroup [alwaysFailRule, alwaysFailRule] "og").evaluate "x" 1).passed = false ↔
       ∀ q ∈ [alwaysFailRule, alwaysFailRule], (q.evaluate "x" 1).passed = false) ∧
    ((Rule.notGroup alwaysPassRule "ng" Severity.medium).evaluate "x" 1 =
       RuleResult.mk false "ng" Severity.medium
         "NOT group failed: always_pass unexpectedly passed") ∧
    ((Rule.andGroup [alwaysFailRule] "ag").evaluate "x" 1).passed =
      (alwaysFailRule.evaluate "x" 1).passed := by
  have h := C5_group_algebra [alwaysFailRule, alwaysFailRule] alwaysPassRule "og"
    Severity.medium "x" 1 (by simp)
  have h' := C5_group_algebra [alwaysFailRule] alwaysFailRule "ag"
    Severity.medium "x" 1 (by simp)
  have h'' := C5_group_algebra [alwaysFailRule] alwaysPassRule "ng"
    Severity.medium "x" 1 (by simp)
  exact ⟨by simp, h.1, (h''.2.2.2.1 (by decide)).trans (by decide), h'.2.2.2.2.1⟩

/-- C8: `register` rejects a duplicate template name with an error (and
produces no new registry state), `register` inserts fresh names, and the
explicit `register_or_update` replaces the template for the name without
failing while leaving every other name's binding unchanged. -/
theorem C8_registry (reg : TemplateRegistry) (t : ExpectationTemplate) :
    (TemplateRegistry.exists_ reg t.name = true →
       TemplateRegistry.register reg t =
         Except.error
           ("Template '" ++ t.name ++ "' already registered. Use override=True to replace.")) ∧
    (TemplateRegistry.exists_ reg t.name = false →
       TemplateRegistry.register reg t = Except.ok (dictSet reg t.name t)) ∧
    (TemplateRegistry.getT (TemplateRegistry.register_or_update reg t) t.name = some t) ∧
    (∀ m, m ≠ t.name →
       TemplateRegistry.getT (TemplateRegistry.register_or_update reg t) m =
         TemplateRegistry.getT reg m) := by
  refine ⟨fun h => by simp [TemplateRegistry.register, h],
          fun h => by simp [TemplateRegistry.register, h], ?_, ?_⟩
  · rw [TemplateRegistry.register_or_update]
    exact getT_dictSet_self reg t.name t
  · intro m hm
    rw [TemplateRegistry.register_or_update]
    exact getT_dictSet_other reg t.name t m hm

/-- A registry fixture holding one template under the name
`safe-response`. -/
def tmplA : ExpectationTemplate := ⟨"safe-response", "original", [], "1.0.0"⟩

/-- A second template with the same name, attempted as an override. -/
def tmplA2 : ExpectationTemplate := ⟨"safe-response", "replacement", [], "2.0.0"⟩

/-- The fixture registry. -/
def reg0 : TemplateRegistry := [("safe-response", tmplA)]

/-- C8 witness: the duplicate registration errors and the explicit
replace operation installs the new template. -/
theorem C8_witness :
    TemplateRegistry.exists_ reg0 tmplA2.name = true ∧
    TemplateRegistry.register reg0 tmplA2 =
      Except.error
        ("Template '" ++ tmplA2.name ++ "' already registered. Use override=True to replace.") ∧
    TemplateRegistry.getT (TemplateRegistry.register_or_update reg0 tmplA2) tmplA2.name =
      some tmplA2 := by
  have h := C8_registry reg0 tmplA2
  exact ⟨rfl, h.1 rfl, h.2.2.1⟩

/-- Evaluator failure shape: when some evaluated result fails, the
verdict is the fail record built from the failing results. -/
theorem evaluate_fail_eq (ev : Evaluator) (text : String) (lat : Int)
    (h : (ev.rules.map (fun r => (contextedRule ev.context r).evaluate text lat)).filter
      (fun q => !q.passed) ≠ []) :
    ev.evaluate text lat =
      Verdict.mk VStatus.fail
        (some (maxSeverityLoop
          ((ev.rules.map (fun r => (contextedRule ev.context r).evaluate text lat)).filter
            (fun q => !q.passed))))
        (((ev.rules.map (fun r => (contextedRule ev.context r).evaluate text lat)).filter
            (fun q => !q.passed)).map (fun q => q.violation_message)) := by
  have hne : ev.rules.isEmpty = false := by
    rcases hr : ev.rules with _ | _
    · rw [hr] at h
      simp at h
    · rfl
  rw [Evaluator.evaluate, if_neg (by simp [hne])]
  have hv : (((ev.rules.map (fun r => (contextedRule ev.context r).evaluate text lat)).filter
      (fun q => !q.passed)).map (fun q => q.violation_message)).isEmpty = false := by
    rcases hf : (ev.rules.map (fun r => (contextedRule ev.context r).evaluate text lat)).filter
        (fun q => !q.passed) with _ | _
    · exact absurd hf h
    · rw [hf]
      rfl
  simp only [hv, Bool.false_eq_true, if_false]

/-- C1: the evaluator returns pass for an empty rule list and whenever no
rule's result fails; otherwise it returns fail, with the violations list
exactly the failing results' messages in rule order and the severity the
maximum severity among the failing results (every rule being evaluated —
the results list is the full map over the rule list). -/
theorem C1_evaluator_verdict (ev : Evaluator) (text : String) (lat : Int) :
    (ev.rules = [] → ev.evaluate text lat = Verdict.passV) ∧
    ((∀ q ∈ ev.rules.map (fun r => (contextedRule ev.context r).evaluate text lat),
        q.passed = true) → ev.evaluate text lat = Verdict.passV) ∧
    ((∃ q ∈ ev.rules.map (fun r => (contextedRule ev.context r).evaluate text lat),
        q.passed = false) →
      (ev.evaluate text lat).status = VStatus.fail ∧
      (ev.evaluate text lat).violations =
        ((ev.rules.map (fun r => (contextedRule ev.context r).evaluate text lat)).filter
          (fun q => !q.passed)).map (fun q => q.violation_message) ∧
      ∃ s, (ev.evaluate text lat).severity = some s ∧
        s ∈ ((ev.rules.map (fun r => (contextedRule ev.context r).evaluate text lat)).filter
          (fun q => !q.passed)).map (fun q => q.severity) ∧
        ∀ q ∈ (ev.rules.map (fun r => (contextedRule ev.context r).evaluate text lat)).filter
          (fun q => !q.passed),
          severity_order q.severity ≤ severity_order s) := by
  refine ⟨fun h => by simp [Evaluator.evaluate, h, Verdict.passV], ?_, ?_⟩
  · intro hall
    rw [Evaluator.evaluate]
    by_cases he : ev.rules.isEmpty
    · rw [if_pos (by simpa using he)]
    · rw [if_neg (by simpa using he)]
      have hfl : (ev.rules.map (fun r => (contextedRule ev.context r).evaluate text lat)).filter
          (fun q => !q.passed) = [] := by
        rw [List.filter_eq_nil_iff]
        intro q hq
        simp [hall q hq]
      simp only [hfl, List.map_nil, List.isEmpty_nil, if_true]
  · intro hex
    have hf : (ev.rules.map (fun r => (contextedRule ev.context r).evaluate text lat)).filter
        (fun q => !q.passed) ≠ [] := by
      rcases hex with ⟨q, hq, hqf⟩
      intro hcon
      have : q ∈ (ev.rules.map (fun r => (contextedRule ev.context r).evaluate text lat)).filter
          (fun q => !q.passed) := List.mem_filter.mpr ⟨hq, by simp [hqf]⟩
      rw [hcon] at this
      simp at this
    rw [evaluate_fail_eq ev text lat hf]
    exact ⟨rfl, rfl, maxSeverityLoop _, rfl, maxSeverityLoop_mem _ hf, maxSeverityLoop_upper _⟩

/-- The evaluator fixture for the C1 witness: one failing, one passing
rule, no ambient context. -/
def evC1 : Evaluator := ⟨[alwaysFailRule, alwaysPassRule], none⟩

/-- C1 witness: with one failing and one passing rule the verdict fails
with exactly the failing rule's message and severity. -/
theorem C1_witness :
    (∃ q ∈ evC1.rules.map (fun r => (contextedRule evC1.context r).evaluate "t" 5),
        q.passed = false) ∧
    (evC1.evaluate "t" 5).status = VStatus.fail ∧
    (evC1.evaluate "t" 5).violations = ["engineered failure"] ∧
    (evC1.evaluate "t" 5).severity = some Severity.high ∧
    Evaluator.evaluate ⟨[], none⟩ "t" 5 = Verdict.passV := by
  have h := (C1_evaluator_verdict evC1 "t" 5).2.2
    ⟨alwaysFailRule.evaluate "t" 5, by simp [evC1, contextedRule], by decide⟩
  refine ⟨⟨alwaysFailRule.evaluate "t" 5, by simp [evC1, contextedRule], by decide⟩,
    h.1, h.2.1.trans (by decide), ?_, by decide⟩
  rcases h.2.2 with ⟨s, hs, hmem, _⟩
  rw [hs]
  have hl : ((evC1.rules.map (fun r => (contextedRule evC1.context r).evaluate "t" 5)).filter
      (fun q => !q.passed)).map (fun q => q.severity) = [Severity.high] := by decide
  rw [hl] at hmem
  rw [List.mem_singleton.mp hmem]

/-- Lowercasing preserves emptiness of a string. -/
theorem strLower_data_nil_iff (s : String) : (strLower s).data = [] ↔ s = "" := by
  have hdata : (strLower s).data = s.data.map Char.toLower := rfl
  rw [hdata, List.map_eq_nil_iff]
  constructor
  · intro h
    cases s with
    | mk d =>
      cases (show d = [] from h)
      rfl
  · intro h
    rw [h]

/-- The empty haystack contains no non-empty needle. -/
theorem listContainsSub_nil (needle : List Char) (h : needle ≠ []) :
    listContainsSub [] needle = false := by
  rcases needle with _ | ⟨c, t⟩
  · exact absurd rfl h
  · rfl

/-- C6 counterexample: a condition with a degenerate target evaluates
true on a context with every key absent (`"" in ""` is true in Python,
`""` equals the absent-key default), and a non-global scope whose only
restriction is an empty provider string matches the empty context — so
"absent keys cause conditions/scopes to evaluate false/non-matching" is
false as universally stated. -/
theorem C6_counterexample :
    (Condition.inputContains "" false).evaluate Context.empty = true ∧
    (Condition.modelEquals "").evaluate Context.empty = true ∧
    (Condition.metadataEquals "tool" PyVal.pnone).evaluate Context.empty = true ∧
    ExpectationScope.is_global (ExpectationScope.mk none (some "") none none) = false ∧
    (ExpectationScope.mk none (some "") none none).matches Context.empty = true := by
  exact ⟨rfl, rfl, rfl, rfl, rfl⟩

/-- C6 (amended): on a context with every key absent, each condition
variant evaluates false provided its target is non-degenerate (non-empty
substring, non-empty model, non-empty provider, non-`None` metadata
value; `FlagSet` unconditionally), and a scope fails to match provided it
restricts node/stage/tool or a non-empty provider.  Evaluation is total,
so no error is possible. -/
theorem C6_absent_context (ctx : Context) (sub m p key flag : String) (cs : Bool)
    (v : PyVal) (s : ExpectationScope)
    (hsub : sub ≠ "") (hm : m ≠ "") (hp : p ≠ "") (hv : v ≠ PyVal.pnone)
    (hin : ctx.input = none) (hmo : ctx.model = none) (hpr : ctx.provider = none)
    (hme : ctx.metadata = none) (hfl : ctx.flags = none)
    (hni : ctx.node_id = none) (hst : ctx.stage = none) (hto : ctx.tool = none)
    (hs : s.node_id.isSome = true ∨ s.stage.isSome = true ∨ s.tool.isSome = true ∨
          ∃ q, s.provider = some q ∧ q ≠ "") :
    (Condition.inputContains sub cs).evaluate ctx = false ∧
    (Condition.modelEquals m).evaluate ctx = false ∧
    (mkProviderEquals p).evaluate ctx = false ∧
    (Condition.metadataEquals key v).evaluate ctx = false ∧
    (Condition.flagSet flag).evaluate ctx = false ∧
    s.matches ctx = false := by
  have hsubl : (strLower sub).data ≠ [] := fun hc => hsub ((strLower_data_nil_iff sub).mp hc)
  have hsubd : sub.data ≠ [] := by
    intro hc
    apply hsub
    cases sub with
    | mk d =>
      cases (show d = [] from hc)
      rfl
  refine ⟨?_, ?_, ?_, ?_, ?_, ?_⟩
  · rw [Condition.evaluate, hin]
    cases cs
    · simp only [Bool.false_eq_true, if_false]
      exact listContainsSub_nil _ hsubl
    · simp only [if_true]
      exact listContainsSub_nil _ hsubd
  · rw [Condition.evaluate, hmo]
    simp only [Option.getD_none]
    exact beq_eq_false_iff_ne.mpr fun hc => hm hc.symm
  · rw [mkProviderEquals, Condition.evaluate, hpr]
    simp only [Option.getD_none]
    have : strLower p ≠ "" := fun hc => hp ((strLower_data_nil_iff p).mp (by rw [hc]))
    have hlow : strLower "" = "" := rfl
    rw [hlow]
    exact beq_eq_false_iff_ne.mpr fun hc => this hc.symm
  · rw [Condition.evaluate, hme]
    simp only [Option.getD_none]
    have hd : dictGet [] key = PyVal.pnone := rfl
    rw [hd]
    cases v with
    | pnone => exact absurd rfl hv
    | pstr s => rfl
    | pint n => rfl
    | pbool b => rfl
  · rw [Condition.evaluate, hfl]
    rfl
  · rcases s with ⟨ni, pr, st, tl⟩
    have hng : ExpectationScope.is_global ⟨ni, pr, st, tl⟩ = false := by
      rcases hs with h | h | h | ⟨q, hq, _⟩
      · rcases Option.isSome_iff_exists.mp h with ⟨nid, rfl⟩
        rfl
      · rcases Option.isSome_iff_exists.mp h with ⟨stv, rfl⟩
        simp [ExpectationScope.is_global]
      · rcases Option.isSome_iff_exists.mp h with ⟨tv, rfl⟩
        simp [ExpectationScope.is_global]
      · subst hq
        simp [ExpectationScope.is_global]
    rw [ExpectationScope.matches, hng]
    simp only [Bool.false_eq_true, if_false]
    rcases hs with h | h | h | ⟨q, hq, hqne⟩
    · rcases Option.isSome_iff_exists.mp h with ⟨nid, rfl⟩
      simp [hni]
    · rcases Option.isSome_iff_exists.mp h with ⟨stv, rfl⟩
      simp [hst]
    · rcases Option.isSome_iff_exists.mp h with ⟨tv, rfl⟩
      simp [hto]
    · subst hq
      have : strLower q ≠ "" := fun hc => hqne ((strLower_data_nil_iff q).mp (by rw [hc]))
      simp only [hpr, Option.getD_none]
      have hlow : strLower "" = "" := rfl
      rw [hlow]
      have hb : ("" == strLower q) = false := by simpa using fun hc => this hc.symm
      simp [hb]

/-- C6 witness: concrete non-degenerate conditions and a node-scoped
restriction all evaluate false / fail to match on the empty context. -/
theorem C6_witness :
    ("refund" : String) ≠ "" ∧
    (Condition.inputContains "refund" false).evaluate Context.empty = false ∧
    (Condition.modelEquals "gpt-4").evaluate Context.empty = false ∧
    (mkProviderEquals "OpenAI").evaluate Context.empty = false ∧
    (Condition.metadataEquals "tool" (PyVal.pstr "search")).evaluate Context.empty = false ∧
    (Condition.flagSet "strict_mode").evaluate Context.empty = false ∧
    (ExpectationScope.mk (some "node-1") none none none).matches Context.empty = false := by
  have h := C6_absent_context Context.empty "refund" "gpt-4" "OpenAI" "tool" "strict_mode"
    false (PyVal.pstr "search") (ExpectationScope.mk (some "node-1") none none none)
    (by decide) (by decide) (by decide) (by decide)
    rfl rfl rfl rfl rfl rfl rfl rfl (Or.inl rfl)
  exact ⟨by decide, h.1, h.2.1, h.2.2.1, h.2.2.2.1, h.2.2.2.2.1, h.2.2.2.2.2⟩

/-- The current ambient context for the C7 fixture: input mentions
"refund". -/
def ctxC7 : Context := ⟨some "refund", none, none, none, none, none, none, none⟩

/-- A conditional on "refund" wrapping an always-failing rule, holding
its construction-time empty context. -/
def nestedCondC7 : Rule :=
  Rule.conditional (Condition.inputContains "refund" false) alwaysFailRule
    "cond_refund" Context.empty

/-- An evaluator whose only rule is the conditional nested inside an AND
group, with the ambient context installed via `set_context`. -/
def evC7 : Evaluator := ⟨[Rule.andGroup [nestedCondC7] "grp"], some ctxC7⟩

/-- C7 counterexample: the condition holds under the evaluator's current
context and the wrapped rule always fails, so under the claim the nested
conditional would activate and the verdict would fail — but the evaluator
only re-supplies context to rules that are themselves top-level
conditional/scoped instances, the nested conditional keeps its empty
construction context, and the verdict is pass. -/
theorem C7_counterexample :
    (Condition.inputContains "refund" false).evaluate ctxC7 = true ∧
    (alwaysFailRule.evaluate "reply" 1).passed = false ∧
    evC7.evaluate "reply" 1 = Verdict.passV := by
  exact ⟨by decide, by decide, by decide⟩

/-- C7 (amended): `evaluate` re-supplies the current context only to
rules that sit directly in the evaluator's rule list and are themselves
conditional/scoped; such a top-level rule has its condition decided
against the current context (its stored context is discarded), while a
group rule — and hence any conditional/scoped rule nested inside it — is
passed through unchanged and keeps its construction-time context. -/
theorem C7_context_resupply (ctx old : Context) (c : Condition) (sc : ExpectationScope)
    (r : Rule) (n : String) (rs : List Rule) (gn : String) (sev : Severity)
    (am : String) (f : String → Int → RuleResult) (text : String) (lat : Int) :
    contextedRule (some ctx) (Rule.conditional c r n old) = Rule.conditional c r n ctx ∧
    contextedRule (some ctx) (Rule.scopedExp sc r n old) = Rule.scopedExp sc r n ctx ∧
    contextedRule (some ctx) (Rule.andGroup rs gn) = Rule.andGroup rs gn ∧
    contextedRule (some ctx) (Rule.orGroup rs gn) = Rule.orGroup rs gn ∧
    contextedRule (some ctx) (Rule.notGroup r gn sev) = Rule.notGroup r gn sev ∧
    contextedRule (some ctx) (Rule.atom am sev f) = Rule.atom am sev f ∧
    contextedRule none (Rule.conditional c r n old) = Rule.conditional c r n old ∧
    (Evaluator.evaluate ⟨[Rule.conditional c r n old], some ctx⟩ text lat =
       Evaluator.evaluate ⟨[Rule.conditional c r n ctx], none⟩ text lat) ∧
    (c.evaluate ctx = false →
       Evaluator.evaluate ⟨[Rule.conditional c r n old], some ctx⟩ text lat = Verdict.passV) ∧
    (Evaluator.evaluate ⟨[Rule.andGroup rs gn], some ctx⟩ text lat =
       Evaluator.evaluate ⟨[Rule.andGroup rs gn], none⟩ text lat) := by
  refine ⟨rfl, rfl, rfl, rfl, rfl, rfl, rfl, rfl, ?_, rfl⟩
  intro hc
  have hres : (contextedRule (some ctx) (Rule.conditional c r n old)).evaluate text lat =
      RuleResult.mk true n Severity.low "" := by
    show (Rule.conditional c r n ctx).evaluate text lat = RuleResult.mk true n Severity.low ""
    simp [Rule.evaluate, hc]
  rw [Evaluator.evaluate]
  simp only [List.isEmpty_cons, Bool.false_eq_true, if_false, List.map_cons, List.map_nil, hres]
  rfl

/-- C7 witness: a top-level conditional with a stale stored context is
decided against the freshly supplied context; with a false condition the
verdict is pass. -/
theorem C7_witness :
    (Condition.inputContains "billing" false).evaluate ctxC7 = false ∧
    Evaluator.evaluate
      ⟨[Rule.conditional (Condition.inputContains "billing" false) alwaysFailRule
          "c" Context.empty], some ctxC7⟩ "reply" 1 = Verdict.passV := by
  have h := (C7_context_resupply ctxC7 Context.empty
    (Condition.inputContains "billing" false) (ExpectationScope.mk none none none none)
    alwaysFailRule "c" [] "g" Severity.medium "a"
    (fun _ _ => RuleResult.mk true "a" Severity.low "") "reply" 1).2.2.2.2.2.2.2.2.1
  exact ⟨by decide, h (by decide)⟩

/-- Blessing an existing record: afterwards the lookup returns the same
record marked golden. -/
theorem find?_after_bless (s : Store) (id : String) (t : Trace)
    (h : s.find? (fun v => v.trace_id == id) = some t) :
    (s.map (fun u =>
        if u.trace_id == id then (⟨t.trace_id, t.verdict, true⟩ : Trace) else u)).find?
        (fun v => v.trace_id == id) = some ⟨t.trace_id, t.verdict, true⟩ := by
  induction s with
  | nil => simp [List.find?] at h
  | cons u tl ih =>
    by_cases hu : (u.trace_id == id) = true
    · rw [find?_cons_pos' (fun v => v.trace_id == id) u tl hu] at h
      injection h with h
      subst h
      rw [List.map_cons, if_pos hu]
      exact find?_cons_pos' (fun v : Trace => v.trace_id == id) _ _ hu
    · rw [find?_cons_neg' (fun v => v.trace_id == id) u tl (by simpa using hu)] at h
      rw [List.map_cons, if_neg hu]
      rw [find?_cons_neg' (fun v => v.trace_id == id) u _ (by simpa using hu)]
      exact ih h

/-- `get_trace` form of `find?_after_bless`. -/
theorem get_trace_after_bless (s : Store) (id : String) (t : Trace)
    (h : Store.get_trace s id = some t) :
    Store.get_trace
        (s.map (fun u => if u.trace_id == id then ⟨t.trace_id, t.verdict, true⟩ else u)) id =
      some ⟨t.trace_id, t.verdict, true⟩ :=
  find?_after_bless s id t h

/-- C9: blessing succeeds exactly for an existing record with a passing
verdict; a record without a verdict or with a failing verdict is rejected
with the `PHYLAX_E201` error (and, the route being pure, no store update
is produced on rejection); on success the record is marked golden. -/
theorem C9_bless_requires_pass (s : Store) (id : String) :
    ((∃ s', bless_route s id = Except.ok s') ↔
       ∃ t, Store.get_trace s id = some t ∧
         ∃ v, t.verdict = some v ∧ v.status = VStatus.pass) ∧
    (∀ t, Store.get_trace s id = some t → t.verdict = none →
       bless_route s id = Except.error "PHYLAX_E201: Cannot bless trace without verdict") ∧
    (∀ t v, Store.get_trace s id = some t → t.verdict = some v → v.status ≠ VStatus.pass →
       bless_route s id = Except.error "PHYLAX_E201: Cannot bless a failing trace") ∧
    (∀ s', bless_route s id = Except.ok s' →
       ∃ t, Store.get_trace s' id = some t ∧ t.blessed = true) := by
  have hself : ∀ t : Trace, Store.get_trace s id = some t →
      ∀ (P : Prop), (t.verdict = none →
        bless_route s id = Except.error "PHYLAX_E201: Cannot bless trace without verdict" → P) →
      (∀ v : Verdict, t.verdict = some v → v.status ≠ VStatus.pass →
        bless_route s id = Except.error "PHYLAX_E201: Cannot bless a failing trace" → P) →
      (∀ v : Verdict, t.verdict = some v → v.status = VStatus.pass →
        bless_route s id = Except.ok (s.map (fun u =>
          if u.trace_id == id then ⟨t.trace_id, t.verdict, true⟩ else u)) → P) → P := by
    intro t hget P hnone hfail hpass
    rcases hv : t.verdict with _ | v
    · refine hnone hv ?_
      simp only [bless_route, hget, hv]
    · by_cases hst : v.status = VStatus.pass
      · refine hpass v hv hst ?_
        simp only [bless_route, hget, hv, if_neg (not_ne_iff.mpr hst), Store.bless_trace]
      · refine hfail v hv hst ?_
        simp only [bless_route, hget, hv, if_pos hst]
  rcases hget : Store.get_trace s id with _ | t
  · have herr : bless_route s id = Except.error ("Trace " ++ id ++ " not found") := by
      simp only [bless_route, hget]
    refine ⟨?_, ?_, ?_, ?_⟩
    · constructor
      · intro ⟨s', hs'⟩
        rw [herr] at hs'
        simp at hs'
      · intro ⟨t, ht, _⟩
        simp at ht
    · intro t ht
      simp at ht
    · intro t v ht
      simp at ht
    · intro s' hs'
      rw [herr] at hs'
      simp at hs'
  · refine hself t hget _ ?_ ?_ ?_
    · intro hv herr
      refine ⟨?_, ?_, ?_, ?_⟩
      · constructor
        · intro ⟨s', hs'⟩
          rw [herr] at hs'
          simp at hs'
        · intro ⟨t', ht', v', hv', _⟩
          injection ht' with ht'
          subst ht'
          rw [hv] at hv'
          simp at hv'
      · intro t' ht' _
        exact herr
      · intro t' v' ht' hv' hne
        injection ht' with ht'
        subst ht'
        rw [hv] at hv'
        simp at hv'
      · intro s' hs'
        rw [herr] at hs'
        simp at hs'
    · intro v hv hst herr
      refine ⟨?_, ?_, ?_, ?_⟩
      · constructor
        · intro ⟨s', hs'⟩
          rw [herr] at hs'
          simp at hs'
        · intro ⟨t', ht', v', hv', hst'⟩
          injection ht' with ht'
          subst ht'
          rw [hv] at hv'
          injection hv' with hv'
          subst hv'
          exact absurd hst' hst
      · intro t' ht' hnone
        injection ht' with ht'
        subst ht'
        rw [hv] at hnone
        simp at hnone
      · intro t' v' _ _ _
        exact herr
      · intro s' hs'
        rw [herr] at hs'
        simp at hs'
    · intro v hv hst hok
      refine ⟨?_, ?_, ?_, ?_⟩
      · exact ⟨fun _ => ⟨t, rfl, v, hv, hst⟩, fun _ => ⟨_, hok⟩⟩
      · intro t' ht' hnone
        injection ht' with ht'
        subst ht'
        rw [hv] at hnone
        simp at hnone
      · intro t' v' ht' hv' hne
        injection ht' with ht'
        subst ht'
        rw [hv] at hv'
        injection hv' with hv'
        subst hv'
        exact absurd hst hne
      · intro s' hs'
        rw [hok] at hs'
        injection hs' with hs'
        subst hs'
        exact ⟨⟨t.trace_id, t.verdict, true⟩, get_trace_after_bless s id t hget, rfl⟩

/-- A failing record and a passing record for the C9 witness. -/
def storeC9 : Store :=
  [⟨"t-fail", some ⟨VStatus.fail, some Severity.high, ["bad"]⟩, false⟩,
   ⟨"t-none", none, false⟩,
   ⟨"t-pass", some ⟨VStatus.pass, none, []⟩, false⟩]

/-- C9 witness: the failing record and the verdict-less record are
rejected with `PHYLAX_E201`; the passing record can be blessed and is
then marked golden. -/
theorem C9_witness :
    Store.get_trace storeC9 "t-fail" =
      some ⟨"t-fail", some ⟨VStatus.fail, some Severity.high, ["bad"]⟩, false⟩ ∧
    bless_route storeC9 "t-fail" =
      Except.error "PHYLAX_E201: Cannot bless a failing trace" ∧
    bless_route storeC9 "t-none" =
      Except.error "PHYLAX_E201: Cannot bless trace without verdict" ∧
    ∃ s', bless_route storeC9 "t-pass" = Except.ok s' := by
  have h := C9_bless_requires_pass storeC9 "t-fail"
  have h2 := C9_bless_requires_pass storeC9 "t-none"
  have h3 := C9_bless_requires_pass storeC9 "t-pass"
  refine ⟨by decide, ?_, ?_, ?_⟩
  · exact h.2.2.1 ⟨"t-fail", some ⟨VStatus.fail, some Severity.high, ["bad"]⟩, false⟩
      ⟨VStatus.fail, some Severity.high, ["bad"]⟩ (by decide) (by decide) (by decide)
  · exact h2.2.1 ⟨"t-none", none, false⟩ (by decide) (by decide)
  · exact h3.1.mpr ⟨⟨"t-pass", some ⟨VStatus.pass, none, []⟩, false⟩, by decide,
      ⟨VStatus.pass, none, []⟩, by decide, rfl⟩

/-- Shifting the running index of the mismatch scan. -/
theorem firstMismatch_shift (a : List String) : ∀ (b : List String) (k : Nat),
    firstMismatch k a b = (firstMismatch 0 a b).map (fun j => j + k) := by
  induction a with
  | nil => intro b k; rfl
  | cons x as ih =>
    intro b k
    rcases b with _ | ⟨y, bs⟩
    · rfl
    · by_cases h : x = y
      · rw [firstMismatch, if_neg (by simp [h]), firstMismatch, if_neg (by simp [h])]
        rw [ih bs (k + 1), ih bs 1]
        rcases firstMismatch 0 as bs with _ | j
        · rfl
        · simp
          omega
      · rw [firstMismatch, if_pos (by simp [h]), firstMismatch, if_pos (by simp [h])]
        simp

/-- The scan returns `none` iff every shared index agrees. -/
theorem firstMismatch_none_iff (a : List String) : ∀ b : List String,
    (firstMismatch 0 a b = none ↔
      ∀ i : Nat, i < a.length → i < b.length → a[i]? = b[i]?) := by
  induction a with
  | nil =>
    intro b
    constructor
    · intro _ i hia _
      simp at hia
    · intro _
      rfl
  | cons x as ih =>
    intro b
    rcases b with _ | ⟨y, bs⟩
    · constructor
      · intro _ i _ hib
        simp at hib
      · intro _
        rfl
    · by_cases h : x = y
      · subst h
        rw [firstMismatch, if_neg (by simp), firstMismatch_shift]
        constructor
        · intro hm i hia hib
          rcases i with _ | i
          · simp
          · have := (ih bs).mp (by simpa using hm) i (by simpa using hia) (by simpa using hib)
            simpa using this
        · intro hall
          have : firstMismatch 0 as bs = none := by
            refine (ih bs).mpr ?_
            intro i hia hib
            have := hall (i + 1) (by simpa using hia) (by simpa using hib)
            simpa using this
          simp [this]
      · rw [firstMismatch, if_pos (by simp [h])]
        constructor
        · intro hm
          simp at hm
        · intro hall
          have := hall 0 (by simp) (by simp)
          simp at this
          exact absurd this h

/-- The scan finds the least differing shared index. -/
theorem firstMismatch_least (a : List String) : ∀ (b : List String) (i : Nat),
    i < a.length → i < b.length → a[i]? ≠ b[i]? → (∀ j : Nat, j < i → a[j]? = b[j]?) →
    firstMismatch 0 a b = some i := by
  induction a with
  | nil =>
    intro b i hia
    simp at hia
  | cons x as ih =>
    intro b i hia hib hne hmin
    rcases b with _ | ⟨y, bs⟩
    · simp at hib
    · rcases i with _ | i
      · have hxy : x ≠ y := by
          intro hc
          exact hne (by simp [hc])
        rw [firstMismatch, if_pos (by simp [hxy])]
      · have hxy : x = y := by
          have := hmin 0 (by omega)
          simpa using this
        rw [firstMismatch, if_neg (by simp [hxy]), firstMismatch_shift]
        have := ih bs i (by simpa using hia) (by simpa using hib) (by simpa using hne)
          (fun j hj => by
            have := hmin (j + 1) (by omega)
            simpa using this)
        simp [this]

/-- C10: `compare_paths` diverges exactly on unequal paths; equal paths
give no divergence point; a first differing shared index `i` yields
`index_i`; unequal paths agreeing on every shared index (one a strict
prefix of the other) yield `length_mismatch`. -/
theorem C10_compare_paths (a b : List String) :
    ((compare_paths a b).diverged = true ↔ a ≠ b) ∧
    (a = b → (compare_paths a b).divergence_point = none) ∧
    (∀ i : Nat, i < a.length → i < b.length → a[i]? ≠ b[i]? →
       (∀ j : Nat, j < i → a[j]? = b[j]?) →
       (compare_paths a b).divergence_point = some ("index_" ++ toString i)) ∧
    (a ≠ b → (∀ i : Nat, i < a.length → i < b.length → a[i]? = b[i]?) →
       (compare_paths a b).divergence_point = some "length_mismatch") := by
  refine ⟨by simp [compare_paths], fun h => by simp [compare_paths, h], ?_, ?_⟩
  · intro i hia hib hne hmin
    have hab : a ≠ b := by
      intro hc
      subst hc
      exact hne rfl
    have hm := firstMismatch_least a b i hia hib hne hmin
    simp [compare_paths, hab, hm]
  · intro hab hall
    have hm := (firstMismatch_none_iff a b).mpr hall
    simp [compare_paths, hab, hm]

/-- C10 witness: a mid-list mismatch reports its index, a strict prefix
reports `length_mismatch`, equal lists report no divergence. -/
theorem C10_witness :
    (["a", "b", "c"] : List String) ≠ ["a", "x", "c"] ∧
    (compare_paths ["a", "b", "c"] ["a", "x", "c"]).divergence_point = some "index_1" ∧
    (compare_paths ["a", "b"] ["a", "b", "c"]).divergence_point = some "length_mismatch" ∧
    (compare_paths ["a", "b"] ["a", "b"]).diverged = false := by
  have h := C10_compare_paths ["a", "b", "c"] ["a", "x", "c"]
  have h2 := C10_compare_paths ["a", "b"] ["a", "b", "c"]
  refine ⟨by decide, ?_, ?_, by decide⟩
  · have := h.2.2.1 1 (by decide) (by decide) (by decide)
      (fun j hj => by interval_cases j; decide)
    simpa using this
  · exact h2.2.2.2 (by decide) (fun i hia hib => by
      have hia2 : i < 2 := by simpa using hia
      interval_cases i <;> decide)

/-- `chainDepth` equation: unknown node. -/
theorem chainDepth_succ_none (g : Graph) (fuel : Nat) (id : String)
    (h : Graph.findNode g id = none) : chainDepth g (fuel + 1) id = none := by
  simp only [chainDepth, h]

/-- `chainDepth` equation: root node. -/
theorem chainDepth_succ_root (g : Graph) (fuel : Nat) (id : String) (n : GNode)
    (h : Graph.findNode g id = some n) (hp : n.parent_node_id = none) :
    chainDepth g (fuel + 1) id = some 0 := by
  simp only [chainDepth, h, hp]

/-- `chainDepth` equation: one step to the parent. -/
theorem chainDepth_succ_parent (g : Graph) (fuel : Nat) (id : String) (n : GNode) (p : String)
    (h : Graph.findNode g id = some n) (hp : n.parent_node_id = some p) :
    chainDepth g (fuel + 1) id = (chainDepth g fuel p).map (fun k => k + 1) := by
  simp only [chainDepth, h, hp]

/-- `isStrictAncestor` equation: unknown node. -/
theorem isAnc_succ_none (g : Graph) (fuel : Nat) (d a : String)
    (h : Graph.findNode g d = none) : isStrictAncestor g (fuel + 1) d a = false := by
  simp only [isStrictAncestor, h]

/-- `isStrictAncestor` equation: root node. -/
theorem isAnc_succ_root (g : Graph) (fuel : Nat) (d a : String) (n : GNode)
    (h : Graph.findNode g d = some n) (hp : n.parent_node_id = none) :
    isStrictAncestor g (fuel + 1) d a = false := by
  simp only [isStrictAncestor, h, hp]

/-- `isStrictAncestor` equation: step through the parent. -/
theorem isAnc_succ_parent (g : Graph) (fuel : Nat) (d a : String) (n : GNode) (p : String)
    (h : Graph.findNode g d = some n) (hp : n.parent_node_id = some p) :
    isStrictAncestor g (fuel + 1) d a = (p == a || isStrictAncestor g fuel p a) := by
  simp only [isStrictAncestor, h, hp]

/-- Larger fuel preserves a defined chain depth. -/
theorem chainDepth_mono (g : Graph) :
    ∀ (f1 : Nat) (id : String) (k : Nat), chainDepth g f1 id = some k →
      ∀ f2 : Nat, f1 ≤ f2 → chainDepth g f2 id = some k := by
  intro f1
  induction f1 with
  | zero =>
    intro id k h
    simp [chainDepth] at h
  | succ f ih =>
    intro id k h f2 hle
    rcases f2 with _ | f2'
    · omega
    · rcases hfind : Graph.findNode g id with _ | n
      · rw [chainDepth_succ_none g f id hfind] at h
        simp at h
      · rcases hpar : n.parent_node_id with _ | p
        · rw [chainDepth_succ_root g f id n hfind hpar] at h
          rw [chainDepth_succ_root g f2' id n hfind hpar]
          exact h
        · rw [chainDepth_succ_parent g f id n p hfind hpar] at h
          rw [chainDepth_succ_parent g f2' id n p hfind hpar]
          rcases hrec : chainDepth g f p with _ | kp
          · rw [hrec] at h
            simp at h
          · rw [hrec] at h
            rw [ih p kp hrec f2' (by omega)]
            exact h

/-- Chain depth does not depend on the fuel that defined it. -/
theorem chainDepth_det (g : Graph) (id : String) (f1 f2 k1 k2 : Nat)
    (h1 : chainDepth g f1 id = some k1) (h2 : chainDepth g f2 id = some k2) : k1 = k2 := by
  have e1 := chainDepth_mono g f1 id k1 h1 (max f1 f2) (le_max_left _ _)
  have e2 := chainDepth_mono g f2 id k2 h2 (max f1 f2) (le_max_right _ _)
  rw [e1] at e2
  exact Option.some.inj e2

/-- A strict ancestor sits at strictly smaller depth. -/
theorem ancestor_depth_lt (g : Graph) :
    ∀ (fuel : Nat) (d a : String), isStrictAncestor g fuel d a = true →
      ∀ (fd kd : Nat), chainDepth g fd d = some kd →
        ∃ fa ka, chainDepth g fa a = some ka ∧ ka < kd := by
  intro fuel
  induction fuel with
  | zero =>
    intro d a h
    simp [isStrictAncestor] at h
  | succ f ih =>
    intro d a h fd kd hd
    rcases hfind : Graph.findNode g d with _ | n
    · rw [isAnc_succ_none g f d a hfind] at h
      simp at h
    · rcases hpar : n.parent_node_id with _ | p
      · rw [isAnc_succ_root g f d a n hfind hpar] at h
        simp at h
      · rw [isAnc_succ_parent g f d a n p hfind hpar] at h
        rcases fd with _ | fd'
        · simp [chainDepth] at hd
        · rw [chainDepth_succ_parent g fd' d n p hfind hpar] at hd
          rcases hrec : chainDepth g fd' p with _ | kp
          · rw [hrec] at hd
            simp at hd
          · rw [hrec] at hd
            have hd' : kp + 1 = kd := by simpa using hd
            simp only [Bool.or_eq_true] at h
            rcases h with hpa | hrec2
            · have hpa' : p = a := by simpa using hpa
              subst hpa'
              exact ⟨fd', kp, hrec, by omega⟩
            · rcases ih p a hrec2 fd' kp hrec with ⟨fa, ka, hka, hlt⟩
              exact ⟨fa, ka, hka, by omega⟩

/-- A node whose chain depth is defined is not its own strict ancestor. -/
theorem not_self_ancestor (g : Graph) (d : String) (fd kd : Nat)
    (hd : chainDepth g fd d = some kd) (fuel : Nat) :
    isStrictAncestor g fuel d d = false := by
  cases hsa : isStrictAncestor g fuel d d
  · rfl
  · exfalso
    rcases ancestor_depth_lt g fuel d d hsa fd kd hd with ⟨fa, ka, hka, hlt⟩
    have := chainDepth_det g d fa fd ka kd hka hd
    omega

/-- Strict ancestry is asymmetric on nodes with defined depth. -/
theorem ancestor_antisym (g : Graph) (d a : String) (f1 f2 fd kd : Nat)
    (hd : chainDepth g fd d = some kd)
    (h1 : isStrictAncestor g f1 d a = true) (h2 : isStrictAncestor g f2 a d = true) :
    False := by
  rcases ancestor_depth_lt g f1 d a h1 fd kd hd with ⟨fa, ka, hka, hlt⟩
  rcases ancestor_depth_lt g f2 a d h2 fa ka hka with ⟨fd2, kd2, hkd2, hlt2⟩
  have := chainDepth_det g d fd2 fd kd2 kd hkd2 hd
  omega

/-- In a valid graph every node's parent chain resolves to a depth. -/
theorem valid_chainDepth (g : Graph) (h : validGraph g = true) :
    ∀ n ∈ g, ∃ k, chainDepth g g.length n.node_id = some k := by
  intro n hn
  rw [validGraph] at h
  rw [Bool.and_eq_true, Bool.and_eq_true, Bool.and_eq_true, Bool.and_eq_true] at h
  have hall := h.2
  rw [List.all_eq_true] at hall
  exact Option.isSome_iff_exists.mp (hall n hn)

/-- C2: for a valid graph, `compute_verdict` fails iff some node's own
verdict fails; `firstFailingNode` is the first failing node in insertion
order; `failedCount` counts the failing nodes; `taintedCount` counts
exactly the nodes tainted by the first failing node (itself and its
strict descendants), and a strict ancestor of the first failing node is
never tainted. -/
theorem C2_graph_verdict (g : Graph) (hvalid : validGraph g = true) :
    ((compute_verdict g).status = VStatus.fail ↔ ∃ n ∈ g, n.vfail = true) ∧
    ((compute_verdict g).firstFailingNode =
       (g.find? (fun n => n.vfail)).map (fun n => n.node_id)) ∧
    ((compute_verdict g).failedCount = (g.filter (fun n => n.vfail)).length) ∧
    (∀ f, g.find? (fun n => n.vfail) = some f →
       (compute_verdict g).taintedCount =
         (g.filter (fun n => tainted g f.node_id n.node_id)).length ∧
       tainted g f.node_id f.node_id = true ∧
       (∀ a, a ∈ g → isStrictAncestor g g.length f.node_id a.node_id = true →
          tainted g f.node_id a.node_id = false)) := by
  rcases hfil : g.filter (fun n => n.vfail) with _ | ⟨f0, fs⟩
  · have hstat : compute_verdict g = ⟨VStatus.pass, 0, 0, none⟩ := by
      simp only [compute_verdict, hfil]
    have hfind : g.find? (fun n => n.vfail) = none := by
      rw [← filter_head_eq_find (fun n => n.vfail) g, hfil]
    refine ⟨?_, ?_, ?_, ?_⟩
    · rw [hstat]
      constructor
      · intro h
        simp at h
      · intro ⟨n, hn, hv⟩
        have : n ∈ g.filter (fun n => n.vfail) := List.mem_filter.mpr ⟨hn, hv⟩
        rw [hfil] at this
        simp at this
    · rw [hstat, hfind]
      rfl
    · rw [hstat, hfil]
      rfl
    · intro f hf
      rw [hfind] at hf
      simp at hf
  · have hstat : compute_verdict g =
        ⟨VStatus.fail, (f0 :: fs).length,
          (g.filter (fun n => tainted g f0.node_id n.node_id)).length, some f0.node_id⟩ := by
      simp only [compute_verdict, hfil]
    have hfind : g.find? (fun n => n.vfail) = some f0 := by
      rw [← filter_head_eq_find (fun n => n.vfail) g, hfil]
    refine ⟨?_, ?_, ?_, ?_⟩
    · rw [hstat]
      constructor
      · intro _
        have hf0 : f0 ∈ g.filter (fun n => n.vfail) := by
          rw [hfil]
          exact List.mem_cons_self _ _
        rcases List.mem_filter.mp hf0 with ⟨hg, hv⟩
        exact ⟨f0, hg, hv⟩
      · intro _
        rfl
    · rw [hstat, hfind]
      rfl
    · rw [hstat, hfil]
    · intro f hf
      rw [hfind] at hf
      injection hf with hf
      subst hf
      have hf0g : f0 ∈ g := List.mem_of_find?_eq_some hfind
      rcases valid_chainDepth g hvalid f0 hf0g with ⟨kd, hkd⟩
      refine ⟨by rw [hstat], by rw [tainted]; simp, ?_⟩
      intro a _ hanc
      rw [tainted]
      have h1 : (a.node_id == f0.node_id) = false := by
        refine beq_eq_false_iff_ne.mpr fun hc => ?_
        rw [hc] at hanc
        have hfalse := not_self_ancestor g f0.node_id g.length kd hkd g.length
        rw [hfalse] at hanc
        simp at hanc
      have h2 : isStrictAncestor g g.length a.node_id f0.node_id = false := by
        cases hsa : isStrictAncestor g g.length a.node_id f0.node_id
        · rfl
        · exact absurd (ancestor_antisym g f0.node_id a.node_id g.length g.length
            g.length kd hkd hanc hsa) id
      rw [h1, h2]
      rfl

/-- The P6 fixture: root A (pass) → child B (fail) → grandchild C
(pass). -/
def gP6 : Graph :=
  [⟨"A", none, false, 100⟩, ⟨"B", some "A", true, 200⟩, ⟨"C", some "B", false, 150⟩]

/-- C2 witness: on the P6 chain the verdict fails with first failing node
B, one failed node, two tainted nodes (B and C), and the ancestor A not
tainted. -/
theorem C2_witness :
    validGraph gP6 = true ∧
    (compute_verdict gP6).status = VStatus.fail ∧
    (compute_verdict gP6).firstFailingNode = some "B" ∧
    (compute_verdict gP6).failedCount = 1 ∧
    (compute_verdict gP6).taintedCount = 2 ∧
    tainted gP6 "B" "A" = false := by
  have h := C2_graph_verdict gP6 (by decide)
  refine ⟨by decide, ?_, by decide, by decide, by decide, ?_⟩
  · exact h.1.mpr ⟨⟨"B", some "A", true, 200⟩, by decide, rfl⟩
  · exact (h.2.2.2 ⟨"B", some "A", true, 200⟩ (by decide)).2.2
      ⟨"A", none, false, 100⟩ (by decide) (by decide)

end Phylax
